import Mathlib

/-!
Shallow embedding of the external adapters of the `time` library:
the quickcheck value generators (`src/quickcheck.rs`), the Unix-timestamp
serde adapter (`src/serde/timestamp.rs`) and the compile-time literal
construction (`time-macros/src/lib.rs`).

Machine integers are modelled as `Int`; the Rust `%` operator on signed
integers is truncated remainder, i.e. `Int.tmod`.  None of the arithmetic
performed by the embedded functions can overflow its Rust type on the
inputs considered, so no wrap-around modelling is needed.
-/

/-- Truncated remainder of a negation: Rust `(-a) % b == -(a % b)`. -/
theorem tmod_neg_left (a b : Int) : (-a).tmod b = -(a.tmod b) := by
  rw [Int.tmod_def, Int.tmod_def, Int.neg_tdiv]
  ring

/-- For a positive divisor the truncated remainder is greater than `-b`. -/
theorem neg_lt_tmod (a : Int) {b : Int} (hb : 0 < b) : -b < a.tmod b := by
  rcases le_or_lt 0 a with ha | ha
  · have h0 : 0 ≤ a.tmod b := Int.tmod_nonneg b ha
    omega
  · have h1 : (-a).tmod b < b := Int.tmod_lt_of_pos (-a) hb
    have h2 : (-a).tmod b = -(a.tmod b) := tmod_neg_left a b
    omega

/-- Embedding of `arbitrary_between` from `src/quickcheck.rs`: take the raw
value drawn by `T::arbitrary`, reduce it modulo `max - min` with the Rust
(truncating) `%`, shift a negative remainder up by the range, and add `min`. -/
def arbitrary_between (x min max : Int) : Int :=
  let range := max - min
  let within_range := Int.tmod x range
  let adjusted := if within_range < 0 then within_range + range else within_range
  adjusted + min

/-- Range of `arbitrary_between`: for `min < max` the result always lies in
the half-open interval `[min, max)` — the upper end is never reached. -/
theorem arbitrary_between_mem (x min max : Int) (h : min < max) :
    min ≤ arbitrary_between x min max ∧ arbitrary_between x min max < max := by
  unfold arbitrary_between
  have hr : (0 : Int) < max - min := by omega
  have h1 : Int.tmod x (max - min) < max - min := Int.tmod_lt_of_pos x hr
  have h2 : -(max - min) < Int.tmod x (max - min) := neg_lt_tmod x hr
  dsimp only
  split <;> omega

/-- The seven weekday variants. -/
inductive Weekday where
  | monday
  | tuesday
  | wednesday
  | thursday
  | friday
  | saturday
  | sunday
deriving DecidableEq

/-- Modelled from the spec: `Weekday::previous` is a modulo-7 rotation with
no calendar lookup (the function itself is not part of the given sources). -/
def Weekday.previous : Weekday → Weekday
  | .monday => .sunday
  | .tuesday => .monday
  | .wednesday => .tuesday
  | .thursday => .wednesday
  | .friday => .thursday
  | .saturday => .friday
  | .sunday => .saturday

/-- Embedding of `impl Arbitrary for Weekday` from `src/quickcheck.rs`:
`arbitrary_between::<u8>(g, 0, 6)` applied to the raw `u8` draw `x`, then the
match sending `0..=5` to Monday..Saturday and everything else to Sunday. -/
def Weekday.arbitrary (x : Int) : Weekday :=
  let v := arbitrary_between x 0 6
  if v = 0 then .monday
  else if v = 1 then .tuesday
  else if v = 2 then .wednesday
  else if v = 3 then .thursday
  else if v = 4 then .friday
  else if v = 5 then .saturday
  else .sunday

/-- Embedding of `Weekday::shrink` from `src/quickcheck.rs`: the empty
shrinker for Monday and the single-element shrinker `previous()` otherwise. -/
def Weekday.shrink : Weekday → List Weekday
  | .monday => []
  | w => [w.previous]

/-- Signed duration as stored by the library: a seconds field and a
nanoseconds field (the quickcheck code constructs it field by field). -/
structure Duration where
  seconds : Int
  nanoseconds : Int
deriving DecidableEq

/-- Sign-consistency for `Duration`: the two fields never carry strictly
opposite signs. -/
def Duration.signConsistent (d : Duration) : Prop :=
  ¬(d.seconds > 0 ∧ d.nanoseconds < 0) ∧ ¬(d.seconds < 0 ∧ d.nanoseconds > 0)

/-- Full generator invariant for `Duration`: sign-consistency together with
the magnitude bound on the nanoseconds field. -/
def Duration.generatorValid (d : Duration) : Prop :=
  d.signConsistent ∧ |d.nanoseconds| ≤ 999999999

/-- Embedding of `impl Arbitrary for Duration::arbitrary` from
`src/quickcheck.rs`: `sRaw` is the raw `i64` draw for seconds, `nRaw` the raw
draw fed to `arbitrary_between(g, 0, 999_999_999)`, and `coin` the lazily
drawn boolean used when seconds is zero.  The nanoseconds sign is coerced to
the seconds sign, allowing a negative sub-second duration when seconds is 0. -/
def Duration.arbitrary (sRaw nRaw : Int) (coin : Bool) : Duration :=
  let seconds := sRaw
  let n0 := arbitrary_between nRaw 0 999999999
  let nanoseconds := if seconds < 0 ∨ (seconds = 0 ∧ coin = true) then -n0 else n0
  ⟨seconds, nanoseconds⟩

/-- Embedding of the map applied by `Duration::shrink` from
`src/quickcheck.rs` to each candidate `(nanoseconds, seconds)` pair produced
by the tuple shrinker: negate the nanoseconds when the two components carry
strictly opposite signs. -/
def Duration.shrinkStep (nRaw sRaw : Int) : Duration :=
  let nanoseconds := if (sRaw > 0 ∧ nRaw < 0) ∨ (sRaw < 0 ∧ nRaw > 0) then -nRaw else nRaw
  ⟨sRaw, nanoseconds⟩

/-- Signed offset from UTC as stored by the library: hours, minutes and
seconds fields (the quickcheck code constructs it field by field). -/
structure UtcOffset where
  hours : Int
  minutes : Int
  seconds : Int
deriving DecidableEq

/-- Three-field sign-consistency for `UtcOffset`: no two of the three fields
carry strictly opposite signs. -/
def UtcOffset.signConsistent (o : UtcOffset) : Prop :=
  (¬(o.hours > 0 ∧ o.minutes < 0) ∧ ¬(o.hours < 0 ∧ o.minutes > 0)) ∧
  (¬(o.hours > 0 ∧ o.seconds < 0) ∧ ¬(o.hours < 0 ∧ o.seconds > 0)) ∧
  (¬(o.minutes > 0 ∧ o.seconds < 0) ∧ ¬(o.minutes < 0 ∧ o.seconds > 0))

/-- Embedding of `impl Arbitrary for UtcOffset::arbitrary` from
`src/quickcheck.rs`: `hRaw`, `mRaw`, `sRaw` are the raw draws fed to
`arbitrary_between`, and `coin1`, `coin2` the lazily drawn booleans used when
the leading fields are zero.  Minutes and seconds are generated non-negative
and their signs coerced to the sign of hours. -/
def UtcOffset.arbitrary (hRaw mRaw sRaw : Int) (coin1 coin2 : Bool) : UtcOffset :=
  let hours := arbitrary_between hRaw (-23) 23
  let minutes := arbitrary_between mRaw 0 59
  let seconds := arbitrary_between sRaw 0 59
  if hours < 0 ∨ (hours = 0 ∧ coin1 = true) ∨ (hours = 0 ∧ minutes = 0 ∧ coin2 = true)
  then ⟨hours, -minutes, -seconds⟩
  else ⟨hours, minutes, seconds⟩

/-- Embedding of the map applied by `UtcOffset::shrink` from
`src/quickcheck.rs` to each candidate `(hours, minutes, seconds)` triple
produced by the tuple shrinker: the minutes sign is coerced to the hours
sign, then the seconds sign is coerced using hours and the already-coerced
minutes. -/
def UtcOffset.shrinkStep (h m s : Int) : UtcOffset :=
  let m1 := if (h > 0 ∧ m < 0) ∨ (h < 0 ∧ m > 0) then -m else m
  let s1 :=
    if (h > 0 ∧ s < 0) ∨ (h < 0 ∧ s > 0) ∨ (m1 > 0 ∧ s < 0) ∨ (m1 < 0 ∧ s > 0)
    then -s else s
  ⟨h, m1, s1⟩

/-- Modelled from the spec: the Gregorian leap-year rule (divisible by 4,
except centuries not divisible by 400); `CalendarMath` is not part of the
given sources. -/
def is_leap_year (y : Int) : Bool :=
  y % 4 == 0 && (y % 100 != 0 || y % 400 == 0)

/-- Modelled from the spec: `days_in_year` is 366 for a leap year and 365
otherwise. -/
def days_in_year (y : Int) : Int :=
  if is_leap_year y then 366 else 365

/-- Modelled from the spec: number of proleptic-Gregorian leap years strictly
before year `y`, via floor division. -/
def leapsBefore (y : Int) : Int :=
  Int.fdiv (y - 1) 4 - Int.fdiv (y - 1) 100 + Int.fdiv (y - 1) 400

/-- Modelled from the spec: days from the Unix epoch 1970-01-01 to day
`ordinal` of year `y` in the proleptic Gregorian calendar (exact integer
arithmetic, no iteration over days). -/
def daysFromEpoch (y ordinal : Int) : Int :=
  365 * (y - 1970) + (leapsBefore y - leapsBefore 1970) + (ordinal - 1)

/-- Modelled from the spec: the lower bound of the supported year range.
The spec gives no numeric value; `-100000` keeps the epoch year strictly
inside the range, which is all the claims depend on. -/
def MIN_YEAR : Int := -100000

/-- Modelled from the spec: the upper bound of the supported year range. -/
def MAX_YEAR : Int := 100000

/-- Modelled from the spec: the earliest representable Unix timestamp, the
first second of year `MIN_YEAR`. -/
def minTimestamp : Int := 86400 * daysFromEpoch MIN_YEAR 1

/-- Modelled from the spec: the latest representable whole-second Unix
timestamp, the last second of year `MAX_YEAR`. -/
def maxTimestamp : Int :=
  86400 * (daysFromEpoch MAX_YEAR (days_in_year MAX_YEAR) + 1) - 1

/-- Absolute instant plus display offset.  The instant is stored UTC-anchored
as a sign-consistent (whole seconds, sub-second nanoseconds) pair relative to
the Unix epoch; the offset is kept in seconds for display only. -/
structure OffsetDateTime where
  secs : Int
  nanos : Int
  offsetSeconds : Int
deriving DecidableEq

/-- Equality of the underlying instant, ignoring the display offset. -/
def OffsetDateTime.instantEq (a b : OffsetDateTime) : Prop :=
  a.secs = b.secs ∧ a.nanos = b.nanos

/-- Modelled from the spec: `OffsetDateTime::unix_timestamp` is the
whole-second count of the UTC-anchored instant since the Unix epoch,
truncated toward zero — with the stored pair sign-consistent this is exactly
the seconds field, independent of the display offset. -/
def unix_timestamp (od : OffsetDateTime) : Int :=
  od.secs

/-- Modelled from the spec: `OffsetDateTime::from_unix_timestamp` interprets
the integer as whole seconds since the epoch at offset UTC and fails when the
value lies outside the representable instant range. -/
def from_unix_timestamp (t : Int) : Except String OffsetDateTime :=
  if minTimestamp ≤ t ∧ t ≤ maxTimestamp
  then .ok ⟨t, 0, 0⟩
  else .error "timestamp out of range"

/-- Wire values seen by the timestamp adapter: a signed 64-bit integer or the
null used by the optional variant. -/
inductive SerdeValue where
  | int (i : Int)
  | null
deriving DecidableEq

/-- Embedding of `serialize` from `src/serde/timestamp.rs`: emit the
datetime's Unix timestamp through the transparent `i64` wrapper. -/
def timestamp.serialize (od : OffsetDateTime) : SerdeValue :=
  .int (unix_timestamp od)

/-- Embedding of `deserialize` from `src/serde/timestamp.rs`: decode an
`i64` through the transparent wrapper (anything else is a type error), then
apply `from_unix_timestamp`, turning its failure into a decode error. -/
def timestamp.deserialize (v : SerdeValue) : Except String OffsetDateTime :=
  match v with
  | .int t => from_unix_timestamp t
  | .null => .error "invalid type: null, expected i64"

/-- Embedding of `option::serialize` from `src/serde/timestamp.rs`: `None`
maps to null, `Some` passes through the non-optional wrapper. -/
def timestamp.option.serialize : Option OffsetDateTime → SerdeValue
  | none => SerdeValue.null
  | some dt => timestamp.serialize dt

/-- Embedding of `option::deserialize` from `src/serde/timestamp.rs`: null
maps to `None`, any other value is handled by the non-optional deserializer. -/
def timestamp.option.deserialize (v : SerdeValue) :
    Except String (Option OffsetDateTime) :=
  match v with
  | .null => .ok none
  | v => (timestamp.deserialize v).map some

/-- Diagnostics produced during literal expansion: the trailing-character
error raised in `time-macros/src/lib.rs`, and (modelled from the spec) the
opaque diagnostics of the helper and parse modules absent from the sources. -/
inductive LiteralError where
  | unexpectedCharacter (c : Char)
  | other (msg : String)
deriving DecidableEq

/-- Outcome of expanding a compile-time literal: a constant-value token
sequence or a compile-time diagnostic. -/
inductive ExpandResult (α : Type) where
  | tokens (v : α)
  | compileError (e : LiteralError)
deriving DecidableEq

/-- Embedding of the body generated by `impl_macros!` in
`time-macros/src/lib.rs`, parametric in the type-specific pieces absent from
the sources: `getStringLiteral` models `helpers::get_string_literal` and
`parseValue` models `<$type>::parse` on the peekable character stream,
returning the value with the unconsumed rest of the stream.  Extract the
string literal, parse it, and fail on any remaining character. -/
def expandLiteral {σ α : Type} (getStringLiteral : σ → Except LiteralError String)
    (parseValue : List Char → Except LiteralError (α × List Char))
    (input : σ) : ExpandResult α :=
  match getStringLiteral input with
  | .error e => .compileError e
  | .ok s =>
    match parseValue s.data with
    | .error e => .compileError e
    | .ok (v, []) => .tokens v
    | .ok (_, c :: _) => .compileError (.unexpectedCharacter c)

/-- Claim C1: the randomized generators are claimed to cover the full legal
range of each type, Sunday included; in fact `arbitrary_between` reduces the
raw draw modulo `max - min` and therefore never returns `max`, so the
`Weekday` generator can never produce Sunday, whatever the raw `u8` draw. -/
theorem weekday_arbitrary_never_sunday (x : Int) :
    Weekday.arbitrary x ≠ Weekday.sunday := by
  have h := arbitrary_between_mem x 0 6 (by norm_num)
  simp only [Weekday.arbitrary]
  split_ifs <;> first | (exfalso; omega) | simp

/-- Claim C2: every `Duration` produced by the generator, and every value
produced by the shrink map from a candidate whose nanosecond component is
within the generated magnitude bound, is sign-consistent with
`|nanoseconds| ≤ 999_999_999`. -/
theorem duration_generator_invariant :
    (∀ (sRaw nRaw : Int) (coin : Bool),
      (Duration.arbitrary sRaw nRaw coin).generatorValid) ∧
    (∀ (nRaw sRaw : Int), |nRaw| ≤ 999999999 →
      (Duration.shrinkStep nRaw sRaw).generatorValid) := by
  constructor
  · intro sRaw nRaw coin
    have h := arbitrary_between_mem nRaw 0 999999999 (by norm_num)
    simp only [Duration.arbitrary, Duration.generatorValid, Duration.signConsistent, abs_le]
    split_ifs <;> omega
  · intro nRaw sRaw h
    rw [abs_le] at h
    simp only [Duration.shrinkStep, Duration.generatorValid, Duration.signConsistent, abs_le]
    split_ifs <;> omega

/-- Witness for C2 at the concrete shrink candidate `(5, -3)`. -/
theorem duration_generator_invariant_witness :
    |(5 : Int)| ≤ 999999999 ∧ (Duration.shrinkStep 5 (-3)).generatorValid :=
  ⟨by decide, duration_generator_invariant.2 5 (-3) (by decide)⟩

/-- Claim C5: every `UtcOffset` produced by the generator and every value
produced by the shrink map is three-field sign-consistent: no two of hours,
minutes, seconds carry strictly opposite signs, with the coercion precedence
hours, then minutes, then seconds. -/
theorem utcoffset_generator_sign_consistent :
    (∀ (hRaw mRaw sRaw : Int) (coin1 coin2 : Bool),
      (UtcOffset.arbitrary hRaw mRaw sRaw coin1 coin2).signConsistent) ∧
    (∀ (h m s : Int), (UtcOffset.shrinkStep h m s).signConsistent) := by
  constructor
  · intro hRaw mRaw sRaw coin1 coin2
    have h1 := arbitrary_between_mem hRaw (-23) 23 (by norm_num)
    have h2 := arbitrary_between_mem mRaw 0 59 (by norm_num)
    have h3 := arbitrary_between_mem sRaw 0 59 (by norm_num)
    simp only [UtcOffset.arbitrary, UtcOffset.signConsistent]
    split_ifs <;> first | omega | (dsimp only; omega)
  · intro h m s
    simp only [UtcOffset.shrinkStep, UtcOffset.signConsistent]
    split_ifs <;> omega

/-- Claim C8: the `Weekday` shrink sequence is empty for Monday and is the
single element `previous()` for every other weekday, and iterating
`previous` reaches Monday from any weekday in at most six steps. -/
theorem weekday_shrink_converges :
    Weekday.shrink Weekday.monday = [] ∧
    (∀ w : Weekday, w ≠ Weekday.monday → Weekday.shrink w = [w.previous]) ∧
    (∀ w : Weekday, ∃ n : Nat, n ≤ 6 ∧ Weekday.previous^[n] w = Weekday.monday) := by
  refine ⟨rfl, ?_, ?_⟩
  · intro w hw
    cases w <;> first | exact absurd rfl hw | rfl
  · intro w
    cases w
    exacts [⟨0, by norm_num, rfl⟩, ⟨1, by norm_num, rfl⟩, ⟨2, by norm_num, rfl⟩,
      ⟨3, by norm_num, rfl⟩, ⟨4, by norm_num, rfl⟩, ⟨5, by norm_num, rfl⟩,
      ⟨6, by norm_num, rfl⟩]

/-- Witness for C8: shrinking Sunday yields exactly Saturday. -/
theorem weekday_shrink_converges_witness :
    Weekday.shrink Weekday.sunday = [Weekday.saturday] := by
  rw [weekday_shrink_converges.2.1 Weekday.sunday (by decide)]
  rfl

/-- Claim C3: deserializing a timestamp returns a decode error exactly when
the integer lies outside the representable instant range, and for every
in-range integer it succeeds with the whole-second UTC instant. -/
theorem timestamp_deserialize_range (t : Int) :
    ((∃ e, timestamp.deserialize (SerdeValue.int t) = Except.error e) ↔
      ¬(minTimestamp ≤ t ∧ t ≤ maxTimestamp)) ∧
    (minTimestamp ≤ t → t ≤ maxTimestamp →
      timestamp.deserialize (SerdeValue.int t) =
        Except.ok ⟨t, 0, 0⟩) := by
  simp only [timestamp.deserialize, from_unix_timestamp]
  constructor
  · split_ifs with h
    · simp [h]
    · simp [h]
  · intro h1 h2
    rw [if_pos ⟨h1, h2⟩]

/-- Witness for C3 at the in-range timestamp `0` (the epoch itself). -/
theorem timestamp_deserialize_range_witness :
    timestamp.deserialize (SerdeValue.int 0) = Except.ok ⟨0, 0, 0⟩ :=
  (timestamp_deserialize_range 0).2 (by decide) (by decide)

/-- The `OffsetDateTime` for UTC midnight 2019-01-01, built through the
calendar arithmetic: day ordinal 1 of year 2019 at 00:00:00 UTC. -/
def utcMidnight2019 : OffsetDateTime :=
  ⟨86400 * daysFromEpoch 2019 1, 0, 0⟩

/-- Claim C4: UTC midnight 2019-01-01 serializes to `1_546_300_800`,
deserializing that integer reproduces the same instant, and more generally
every successful deserialization serializes back to the original integer. -/
theorem timestamp_roundtrip_2019 :
    timestamp.serialize utcMidnight2019 = SerdeValue.int 1546300800 ∧
    timestamp.deserialize (SerdeValue.int 1546300800) = Except.ok utcMidnight2019 ∧
    (∀ (t : Int) (od : OffsetDateTime),
      timestamp.deserialize (SerdeValue.int t) = Except.ok od →
      timestamp.serialize od = SerdeValue.int t) := by
  refine ⟨rfl, rfl, ?_⟩
  intro t od h
  simp only [timestamp.deserialize, from_unix_timestamp] at h
  split_ifs at h
  cases h
  rfl

/-- Witness for C4: the round trip applied at the scenario timestamp. -/
theorem timestamp_roundtrip_2019_witness :
    timestamp.serialize utcMidnight2019 = SerdeValue.int 1546300800 :=
  timestamp_roundtrip_2019.2.2 1546300800 utcMidnight2019 rfl

/-- Claim C6: the serialized integer depends only on the underlying instant:
two datetimes denoting the same instant under different display offsets
serialize identically. -/
theorem timestamp_serialize_offset_independent (a b : OffsetDateTime)
    (h : a.instantEq b) (_hne : a.offsetSeconds ≠ b.offsetSeconds) :
    timestamp.serialize a = timestamp.serialize b := by
  unfold timestamp.serialize unix_timestamp
  rw [h.1]

/-- Witness for C6: the same instant displayed at UTC and at +01:00. -/
theorem timestamp_serialize_offset_independent_witness :
    timestamp.serialize ⟨100, 0, 0⟩ = timestamp.serialize ⟨100, 0, 3600⟩ :=
  timestamp_serialize_offset_independent ⟨100, 0, 0⟩ ⟨100, 0, 3600⟩
    (by constructor <;> rfl) (by decide)

/-- Claim C7: the generated literal expansion yields the parsed value's
token sequence exactly when the string literal is extracted, the parse
succeeds, and the character stream is fully consumed; in every other case it
yields the corresponding compile-time diagnostic. -/
theorem literal_expansion_contract {σ α : Type}
    (g : σ → Except LiteralError String)
    (p : List Char → Except LiteralError (α × List Char)) (input : σ) :
    (∀ v : α, expandLiteral g p input = ExpandResult.tokens v ↔
      ∃ s : String, g input = Except.ok s ∧ p s.data = Except.ok (v, [])) ∧
    (∀ e, g input = Except.error e →
      expandLiteral g p input = ExpandResult.compileError e) ∧
    (∀ s e, g input = Except.ok s → p s.data = Except.error e →
      expandLiteral g p input = ExpandResult.compileError e) ∧
    (∀ s v c rest, g input = Except.ok s → p s.data = Except.ok (v, c :: rest) →
      expandLiteral g p input =
        ExpandResult.compileError (LiteralError.unexpectedCharacter c)) := by
  refine ⟨?_, ?_, ?_, ?_⟩
  · intro v
    cases hg : g input with
    | error e => simp [expandLiteral, hg]
    | ok s =>
      cases hp : p s.data with
      | error e => simp [expandLiteral, hg, hp]
      | ok pr =>
        obtain ⟨v0, rest⟩ := pr
        cases rest with
        | nil => simp [expandLiteral, hg, hp, eq_comm]
        | cons c cs => simp [expandLiteral, hg, hp]
  · intro e hg
    simp [expandLiteral, hg]
  · intro s e hg hp
    simp [expandLiteral, hg, hp]
  · intro s v c rest hg hp
    simp [expandLiteral, hg, hp]

/-- Sample string-literal extractor for the C7 witness: the input is already
the literal. -/
def sampleGetLiteral : Unit → Except LiteralError String :=
  fun _ => Except.ok "7"

/-- Sample single-character parse function for the C7 witness. -/
def sampleParseValue : List Char → Except LiteralError (Nat × List Char)
  | '7' :: rest => Except.ok (7, rest)
  | _ => Except.error (LiteralError.other "unexpected")

/-- Witness for C7: a fully consumed literal expands to its value. -/
theorem literal_expansion_contract_witness :
    expandLiteral sampleGetLiteral sampleParseValue () = ExpandResult.tokens 7 :=
  ((literal_expansion_contract sampleGetLiteral sampleParseValue ()).1 7).mpr
    ⟨"7", rfl, rfl⟩

/-- Claim C9: the optional-value variant passes absent values through
unchanged and agrees with the non-optional adapter on present values, both
when serializing and when deserializing. -/
theorem timestamp_option_passthrough :
    timestamp.option.serialize none = SerdeValue.null ∧
    timestamp.option.deserialize SerdeValue.null = Except.ok none ∧
    (∀ dt : OffsetDateTime,
      timestamp.option.serialize (some dt) = timestamp.serialize dt) ∧
    (∀ t : Int,
      timestamp.option.deserialize (SerdeValue.int t) =
        (timestamp.deserialize (SerdeValue.int t)).map some) :=
  ⟨rfl, rfl, fun _ => rfl, fun _ => rfl⟩

/-- Claim C10: serialization truncates to whole seconds — it depends only on
the whole-second component of the instant; deserialization always yields a
zero-nanosecond instant; and serialize-then-deserialize reproduces the
instant exactly when its sub-second nanoseconds are zero. -/
theorem timestamp_whole_second_truncation :
    (∀ a b : OffsetDateTime, a.secs = b.secs →
      timestamp.serialize a = timestamp.serialize b) ∧
    (∀ (t : Int) (od : OffsetDateTime),
      timestamp.deserialize (SerdeValue.int t) = Except.ok od → od.nanos = 0) ∧
    (∀ od od2 : OffsetDateTime,
      timestamp.deserialize (timestamp.serialize od) = Except.ok od2 →
      (od2.instantEq od ↔ od.nanos = 0)) := by
  refine ⟨?_, ?_, ?_⟩
  · intro a b h
    unfold timestamp.serialize unix_timestamp
    rw [h]
  · intro t od h
    simp only [timestamp.deserialize, from_unix_timestamp] at h
    split_ifs at h
    cases h
    rfl
  · intro od od2 h
    simp only [timestamp.serialize, unix_timestamp, timestamp.deserialize,
      from_unix_timestamp] at h
    split_ifs at h
    cases h
    unfold OffsetDateTime.instantEq
    constructor
    · intro hi
      exact hi.2.symm
    · intro hn
      exact ⟨rfl, hn.symm⟩

/-- Witness for C10: a sub-second instant does not survive the round trip. -/
theorem timestamp_whole_second_truncation_witness :
    ¬ OffsetDateTime.instantEq ⟨5, 0, 0⟩ ⟨5, 7, 0⟩ := by
  intro hc
  have h := (timestamp_whole_second_truncation.2.2 ⟨5, 7, 0⟩ ⟨5, 0, 0⟩ rfl).mp hc
  exact absurd h (by norm_num)
